import Mathlib

/-!
# Verification of the poke_research repository

Shallow embedding of the repository's core logic and proofs of the
specification claims.

* `PokeApp` embeds the research/resource cache of `src/app.py`
  (`hash_query`, `ResearchCache.get_cached_research`,
  `ResearchCache.cache_research`, `ResearchCache.cleanup_expired`).
  Database tables are modeled as lists of rows in rowid order; SQL
  timestamps are modeled as natural numbers counted in hours, so that
  `timedelta(hours=h)` is addition of `h`.  The `json.dumps`/`json.loads`
  round trip applied to the `results` payload is modeled as the identity
  on an opaque serialized payload string.
* `SemanticCache` models the semantic matching strategy of the research
  cache, which is described by the specification but has no source file
  in the repository.
* `PokeAgent` embeds `src/pokemon_research.py`
  (`PokemonResearchAgent._explore_object_recursively`,
  `_execute_tool`, `_synthesize_knowledge`, `_create_fallback_summary`,
  `research`, `clear_cache`).
-/

/-- Python `str.lower()`, modeled at the character level. -/
def pyLower (s : String) : String := String.mk (s.data.map Char.toLower)

/-- Python `str.strip()` on a character list: drop leading and trailing
whitespace. -/
def pyStripChars (l : List Char) : List Char :=
  ((l.dropWhile Char.isWhitespace).reverse.dropWhile Char.isWhitespace).reverse

/-- Python `str.strip()`. -/
def pyStrip (s : String) : String := String.mk (pyStripChars s.data)

namespace PokeApp

/-- A row of the `research_cache` table (src/app.py, `init_db`).
Timestamps are modeled in hours since an epoch. -/
structure ResearchRow where
  query_hash : String
  query : String
  results : String
  source_urls : Option String
  cached_at : Nat
  expires_at : Nat
  access_count : Nat
deriving DecidableEq, Repr

/-- A row of the `resource_cache` table (src/app.py, `init_db`). -/
structure ResourceRow where
  url : String
  content : String
  content_type : String
  cached_at : Nat
  expires_at : Nat
  size : Nat
deriving DecidableEq, Repr

/-- `hash_query` from src/app.py: hash of the lowercased, stripped query
text.  The md5 hex digest is an opaque parameter `md5`; the embedding
only relies on it being a function. -/
def hash_query (md5 : String → String) (query : String) : String :=
  md5 (pyStrip (pyLower query))

/-- The dictionary returned by `ResearchCache.get_cached_research` on a
hit (`results` after the identity-modeled json round trip). -/
structure LookupHit where
  results : String
  source_urls : Option String
  cached_at : Nat
deriving DecidableEq, Repr

/-- Row predicate of the lookup query:
`query_hash = ? AND expires_at > CURRENT_TIMESTAMP`. -/
def rowMatches (qh : String) (now : Nat) (r : ResearchRow) : Bool :=
  decide (r.query_hash = qh) && decide (now < r.expires_at)

/-- `UPDATE research_cache SET access_count = access_count + 1 WHERE id = ?`
applied to the row found by the lookup query (the first matching row in
rowid order). -/
def bumpFirst (qh : String) (now : Nat) : List ResearchRow → List ResearchRow
  | [] => []
  | r :: rs =>
    if rowMatches qh now r then { r with access_count := r.access_count + 1 } :: rs
    else r :: bumpFirst qh now rs

/-- `ResearchCache.get_cached_research` from src/app.py: select the
non-expired row with the query's hash; on a hit increment its
access count, commit, and return the stored payload. -/
def get_cached_research (md5 : String → String) (db : List ResearchRow) (now : Nat)
    (query : String) : Option LookupHit × List ResearchRow :=
  let qh := hash_query md5 query
  match db.find? (rowMatches qh now) with
  | some r =>
    (some { results := r.results, source_urls := r.source_urls, cached_at := r.cached_at },
     bumpFirst qh now db)
  | none => (none, db)

/-- `ResearchCache.cache_research` from src/app.py:
`INSERT OR REPLACE` keyed by the `UNIQUE` column `query_hash`; the
replacement row takes the schema defaults `cached_at = CURRENT_TIMESTAMP`
and `access_count = 0`. -/
def cache_research (md5 : String → String) (db : List ResearchRow) (now : Nat)
    (query results : String) (source_urls : Option String) (cache_hours : Nat) :
    List ResearchRow :=
  let qh := hash_query md5 query
  let expires_at := now + cache_hours
  db.filter (fun r => !(decide (r.query_hash = qh))) ++
    [{ query_hash := qh, query := query, results := results, source_urls := source_urls,
       cached_at := now, expires_at := expires_at, access_count := 0 }]

/-- `ResearchCache.cleanup_expired` from src/app.py: delete the rows with
`expires_at < CURRENT_TIMESTAMP` from both cache tables and commit.  The
second component is the Python return value: the function body has no
`return` statement, so it returns `None`, modeled as `Option.none` (in
particular it does not return a removal count). -/
def cleanup_expired (research : List ResearchRow) (resource : List ResourceRow)
    (now : Nat) : (List ResearchRow × List ResourceRow) × Option Nat :=
  ((research.filter (fun r => !(decide (r.expires_at < now))),
    resource.filter (fun r => !(decide (r.expires_at < now)))), none)

/-- Iterated lookups: `n` consecutive calls of `get_cached_research`
for the same query at the same time, threading the database state. -/
def lookupN (md5 : String → String) (now : Nat) (query : String) :
    Nat → List ResearchRow → List ResearchRow
  | 0, db => db
  | n + 1, db => lookupN md5 now query n (get_cached_research md5 db now query).2

/-- Concrete expired row used in the C7 counterexample. -/
def expiredResearchRow : ResearchRow :=
  { query_hash := "h", query := "q", results := "r", source_urls := none,
    cached_at := 0, expires_at := 1, access_count := 0 }

/-- Concrete expired resource row used in the C7 counterexample. -/
def expiredResourceRow : ResourceRow :=
  { url := "u", content := "c", content_type := "text/html",
    cached_at := 0, expires_at := 1, size := 1 }

end PokeApp

namespace SemanticCache

/-- Modelled from the spec: a cache entry of the semantic matching
strategy.  No source file of the repository implements the semantic
strategy (spec section 4.6 describes it as the advanced variant of the
research cache), so the entry carries what the spec requires: the
original query text, the serialized answer payload, a fixed-dimension
embedding vector, and an expiry timestamp. -/
structure SemEntry (d : Nat) where
  query : String
  answer : String
  embedding : Fin d → ℚ
  expires_at : Nat

/-- First maximizer of `f` in a list: the element with the greatest
`f`-value, ties broken in favor of the earliest occurrence. -/
def argmaxFirst {α : Type} (f : α → ℚ) : List α → Option α
  | [] => none
  | a :: as =>
    match argmaxFirst f as with
    | none => some a
    | some b => if f a < f b then some b else some a

/-- Modelled from the spec (section 4.6, semantic strategy): encode the
query into a fixed-dimension embedding vector, compute the similarity
against the embedding of every non-expired cached entry, and if the
maximum similarity is greater than or equal to the configured threshold
(default 0.95) return the entry with the highest similarity, ties broken
by first-encountered order; otherwise miss.  The embedding provider
`encode` and the similarity measure `sim` are the spec's external
collaborators and enter as parameters. -/
def semantic_lookup {d : Nat} (sim : (Fin d → ℚ) → (Fin d → ℚ) → ℚ)
    (encode : String → Fin d → ℚ) (threshold : ℚ) (entries : List (SemEntry d))
    (now : Nat) (q : String) : Option (SemEntry d) :=
  let qe := encode q
  let live := entries.filter (fun e => decide (now < e.expires_at))
  match argmaxFirst (fun e => sim qe e.embedding) live with
  | none => none
  | some best => if threshold ≤ sim qe best.embedding then some best else none

/-- Default similarity threshold of the semantic strategy. -/
def defaultThreshold : ℚ := 95 / 100

/-- Concrete similarity (dot product on dimension 2) for the C5
witness. -/
def simW (u v : Fin 2 → ℚ) : ℚ := u 0 * v 0 + u 1 * v 1

/-- Concrete embedding provider for the C5 witness. -/
def encW (_ : String) : Fin 2 → ℚ := ![1, 0]

/-- Witness entry whose similarity with every encoded query is exactly
the default threshold. -/
def entryAtThreshold : SemEntry 2 :=
  { query := "charizard stats", answer := "a1", embedding := ![95 / 100, 0],
    expires_at := 10 }

/-- Witness entry whose similarity with every encoded query is strictly
below the default threshold. -/
def entryBelowThreshold : SemEntry 2 :=
  { query := "charizard stats", answer := "a2", embedding := ![94 / 100, 0],
    expires_at := 10 }

end SemanticCache

namespace PokeAgent

/-- The textual representation of a Python float as serialized by
`json.dumps`: a nonempty character sequence beginning with a minus sign
or a digit.  Float arithmetic plays no role in the embedded code, so a
float value is modeled by its serialized text. -/
structure FloatRepr where
  chars : List Char
  head_ok : ∃ c cs, chars = c :: cs ∧ (c = '-' ∨ c.isDigit = true)

/-- Primitive Python scalars, the `isinstance(obj, (str, int, float, bool))`
cases of `_explore_object_recursively`. -/
inductive Prim where
  | pstr (s : String)
  | pint (n : Int)
  | pfloat (f : FloatRepr)
  | pbool (b : Bool)

/-- A Python object on the heap.  References are heap addresses, so the
object graph may contain cycles.  `pyobj` holds the public and private
entries of `__dict__`; `pyother` is an object without `__dict__`, carrying
its type name and `some s` when `str(obj)` succeeds with `s`, `none` when
stringification raises. -/
inductive HObj where
  | pynone
  | prim (p : Prim)
  | pylist (elems : List Nat)
  | pydict (entries : List (String × Nat))
  | pyobj (attrs : List (String × Nat))
  | pyother (type_name : String) (str_repr : Option String)

/-- A Python heap: every address holds an object. -/
abbrev Heap := Nat → HObj

mutual
/-- The bounded plain structure produced by
`_explore_object_recursively`. -/
inductive Explored where
  | enone
  | eprim (p : Prim)
  | elist (items : EList)
  | edict (entries : EDict)
/-- A list of explored values (a mutual inductive so that all recursion
over `Explored` stays structural). -/
inductive EList where
  | nil
  | cons (head : Explored) (tail : EList)
/-- A string-keyed dictionary of explored values. -/
inductive EDict where
  | nil
  | cons (key : String) (val : Explored) (tail : EDict)
end

/-- Build an `EList` by applying `f` to each heap address of a list. -/
def elistOfList (f : Nat → Explored) : List Nat → EList
  | [] => EList.nil
  | r :: rs => EList.cons (f r) (elistOfList f rs)

/-- Build an `EDict` by applying `f` to the value address of each entry. -/
def edictOfList (f : Nat → Explored) : List (String × Nat) → EDict
  | [] => EDict.nil
  | (k, r) :: rest => EDict.cons k (f r) (edictOfList f rest)

/-- Number of items of an `EList`. -/
def EList.length : EList → Nat
  | EList.nil => 0
  | EList.cons _ t => t.length + 1

/-- Number of entries of an `EDict`. -/
def EDict.length : EDict → Nat
  | EDict.nil => 0
  | EDict.cons _ _ t => t.length + 1

/-- The sentinel returned at the depth limit:
`{"_truncated": "Max depth reached"}`. -/
def truncatedMarker : Explored :=
  Explored.edict (EDict.cons "_truncated" (Explored.eprim (Prim.pstr "Max depth reached"))
    EDict.nil)

/-- `_explore_object_recursively` from src/pokemon_research.py, with the
remaining depth `max_depth - current_depth` as structural fuel: at the
limit return the truncated marker; pass primitives (and `None`) through;
sample lists to the first `min 5 len` elements; truncate dicts to the
first 15 entries; expand objects with `__dict__` to their public
(non-underscore) attributes; stringify everything else, with a type-tag
placeholder `<TypeName object>` when `str()` raises. -/
def exploreFuel (h : Heap) : Nat → Nat → Explored
  | 0, _ => truncatedMarker
  | fuel + 1, r =>
    match h r with
    | HObj.pynone => Explored.enone
    | HObj.prim p => Explored.eprim p
    | HObj.pylist elems =>
      if elems.isEmpty then Explored.elist EList.nil
      else Explored.elist (elistOfList (exploreFuel h fuel)
        (elems.take (min 5 elems.length)))
    | HObj.pydict entries =>
      Explored.edict (edictOfList (exploreFuel h fuel) (entries.take 15))
    | HObj.pyobj attrs =>
      Explored.edict (edictOfList (exploreFuel h fuel)
        (attrs.filter (fun kv => !(List.isPrefixOf ['_'] kv.1.data))))
    | HObj.pyother _ (some s) => Explored.eprim (Prim.pstr s)
    | HObj.pyother ty none => Explored.eprim (Prim.pstr ("<" ++ ty ++ " object>"))

/-- `_explore_object_recursively(obj, max_depth, current_depth)`: the
depth-counter guard `current_depth >= max_depth` is exactly fuel
exhaustion of `max_depth - current_depth`, and every recursive call of
the source increments `current_depth` by one, i.e. decrements the
fuel. -/
def explore_object_recursively (h : Heap) (r : Nat) (max_depth current_depth : Nat) :
    Explored :=
  exploreFuel h (max_depth - current_depth) r

mutual
/-- Nesting depth of an explored structure (scalars at depth 0). -/
def edepth : Explored → Nat
  | Explored.enone => 0
  | Explored.eprim _ => 0
  | Explored.elist items => edepthList items + 1
  | Explored.edict entries => edepthDict entries + 1
def edepthList : EList → Nat
  | EList.nil => 0
  | EList.cons x t => max (edepth x) (edepthList t)
def edepthDict : EDict → Nat
  | EDict.nil => 0
  | EDict.cons _ v t => max (edepth v) (edepthDict t)
end

/-- Decimal digit character. -/
def digitChar (d : Nat) : Char :=
  if d = 0 then '0' else if d = 1 then '1' else if d = 2 then '2'
  else if d = 3 then '3' else if d = 4 then '4' else if d = 5 then '5'
  else if d = 6 then '6' else if d = 7 then '7' else if d = 8 then '8' else '9'

/-- Decimal digits of a natural number, most significant first, with
structural fuel (any fuel of at least the digit count gives the decimal
representation; `natToChars` supplies `n + 1`). -/
def natToCharsCore : Nat → Nat → List Char
  | 0, _ => []
  | fuel + 1, n =>
    if n < 10 then [digitChar n]
    else natToCharsCore fuel (n / 10) ++ [digitChar (n % 10)]

/-- Decimal representation of a natural number. -/
def natToChars (n : Nat) : List Char := natToCharsCore (n + 1) n

/-- Decimal representation of an integer, as printed by Python. -/
def intChars : Int → List Char
  | Int.ofNat n => natToChars n
  | Int.negSucc n => '-' :: natToChars (n + 1)

/-- Decimal string of a natural number. -/
def natToString (n : Nat) : String := String.mk (natToChars n)

/-- JSON escaping of one character (quote, backslash and newline; other
characters pass through). -/
def escapeChar (c : Char) : List Char :=
  if c = '"' then ['\\', '"']
  else if c = '\\' then ['\\', '\\']
  else if c = '\n' then ['\\', 'n']
  else [c]

/-- JSON string literal. -/
def jsonStringChars (s : String) : List Char :=
  '"' :: (s.data.map escapeChar).flatten ++ ['"']

/-- Indentation of `n` spaces. -/
def spaces (n : Nat) : List Char := List.replicate n ' '

/-- Serialization of a primitive scalar as by `json.dumps`. -/
def primChars : Prim → List Char
  | Prim.pstr s => jsonStringChars s
  | Prim.pint n => intChars n
  | Prim.pfloat f => f.chars
  | Prim.pbool true => ['t', 'r', 'u', 'e']
  | Prim.pbool false => ['f', 'a', 'l', 's', 'e']

mutual
/-- `json.dumps(x, indent=2, default=str)` on an explored structure,
at nesting level `lvl`. -/
def jsonChars (lvl : Nat) : Explored → List Char
  | Explored.enone => ['n', 'u', 'l', 'l']
  | Explored.eprim p => primChars p
  | Explored.elist EList.nil => ['[', ']']
  | Explored.elist (EList.cons x xs) =>
    '[' :: '\n' ::
      (jsonListItems lvl (EList.cons x xs) ++ '\n' :: (spaces (lvl * 2) ++ [']']))
  | Explored.edict EDict.nil => ['\x7b', '\x7d']
  | Explored.edict (EDict.cons k v kvs) =>
    '\x7b' :: '\n' ::
      (jsonDictItems lvl (EDict.cons k v kvs) ++ '\n' :: (spaces (lvl * 2) ++ ['\x7d']))
/-- The comma-and-newline separated, indented items of a serialized
list. -/
def jsonListItems (lvl : Nat) : EList → List Char
  | EList.nil => []
  | EList.cons x EList.nil => spaces ((lvl + 1) * 2) ++ jsonChars (lvl + 1) x
  | EList.cons x (EList.cons y ys) =>
    spaces ((lvl + 1) * 2) ++ jsonChars (lvl + 1) x ++
      ',' :: '\n' :: jsonListItems lvl (EList.cons y ys)
/-- The comma-and-newline separated, indented entries of a serialized
dictionary. -/
def jsonDictItems (lvl : Nat) : EDict → List Char
  | EDict.nil => []
  | EDict.cons k v EDict.nil =>
    spaces ((lvl + 1) * 2) ++ jsonStringChars k ++ ':' :: ' ' :: jsonChars (lvl + 1) v
  | EDict.cons k v (EDict.cons k' v' kvs) =>
    spaces ((lvl + 1) * 2) ++ jsonStringChars k ++ ':' :: ' ' :: jsonChars (lvl + 1) v ++
      ',' :: '\n' :: jsonDictItems lvl (EDict.cons k' v' kvs)
end

/-- `json.dumps(explored_result, indent=2, default=str)`. -/
def jsonDumps (e : Explored) : String := String.mk (jsonChars 0 e)

/-- Values of tool-call arguments (JSON scalars as they appear in a
parsed `tool_call.function.arguments` object). -/
inductive ArgVal where
  | s (v : String)
  | i (v : Int)
  | b (v : Bool)
deriving DecidableEq, Repr

/-- A parsed JSON argument object: ordered keyword arguments. -/
abbrev Args := List (String × ArgVal)

/-- Lexicographic codepoint order on character lists (the string order
used by `sort_keys=True`). -/
def listCharLe : List Char → List Char → Bool
  | [], _ => true
  | _ :: _, [] => false
  | a :: as, b :: bs =>
    if a.toNat < b.toNat then true
    else if b.toNat < a.toNat then false
    else listCharLe as bs

/-- Lexicographic order on strings. -/
def keyLe (a b : String) : Bool := listCharLe a.data b.data

/-- Insertion into a key-sorted argument list. -/
def insertSorted (kv : String × ArgVal) : Args → Args
  | [] => [kv]
  | kv' :: rest =>
    if keyLe kv.1 kv'.1 then kv :: kv' :: rest else kv' :: insertSorted kv rest

/-- `json.dumps(arguments, sort_keys=True)`: order-independent
canonicalization of the argument object, modeled as sorting the entries
by key. -/
def sortKeys : Args → Args
  | [] => []
  | kv :: rest => insertSorted kv (sortKeys rest)

/-- The cache key `f"{tool_name}_{json.dumps(arguments, sort_keys=True)}"`,
modeled as the pair of the tool name and the canonicalized arguments. -/
def cacheKey (tool_name : String) (arguments : Args) : String × Args :=
  (tool_name, sortKeys arguments)

/-- Type of durable-cache and session-set keys. -/
abbrev Key := String × Args

/-- Mutable state of a `PokemonResearchAgent`: the durable function
cache, the per-invocation session call set and the knowledge base (raw
result references).  Python dictionaries and sets are modeled as
insertion-ordered lists. -/
structure AgentState where
  function_cache : List (Key × String)
  current_session_calls : List Key
  knowledge_base : List (Key × Nat)
deriving DecidableEq

/-- The agent state built by `__init__`. -/
def initState : AgentState :=
  { function_cache := [], current_session_calls := [], knowledge_base := [] }

/-- The tool environment: the heap holding the domain objects and the
`tool_functions` table mapping tool names to operations.  An operation
returns the heap address of its result, or `Except.error msg` when the
underlying call raises with message `msg`. -/
structure ToolEnv where
  heap : Heap
  tool_functions : List (String × (Args → Except String Nat))

/-- Python `dict` lookup on an insertion-ordered association list. -/
def lookupAssoc {α : Type} (l : List (Key × α)) (k : Key) : Option α :=
  (l.find? (fun kv => decide (kv.1 = k))).map (fun kv => kv.2)

/-- Lookup in the `tool_functions` table. -/
def lookupFn (fns : List (String × (Args → Except String Nat))) (name : String) :
    Option (Args → Except String Nat) :=
  (fns.find? (fun kv => decide (kv.1 = name))).map (fun kv => kv.2)

/-- Python `d[k] = v`: replace the binding in place if the key exists,
else append the new binding at the end (insertion order). -/
def setAssoc {α : Type} : List (Key × α) → Key → α → List (Key × α)
  | [], k, v => [(k, v)]
  | kv :: t, k, v => if kv.1 = k then (k, v) :: t else kv :: setAssoc t k v

/-- Python `s.add(k)` on an insertion-ordered set. -/
def addSet (l : List Key) (k : Key) : List Key := if k ∈ l then l else l ++ [k]

/-- The characters of the marker prefix checked by
`result.startswith("[CACHED]")`. -/
def markerChars : List Char := ['[', 'C', 'A', 'C', 'H', 'E', 'D', ']']

/-- Python `result.startswith("[CACHED]")`. -/
def isCachedMarker (s : String) : Bool := markerChars.isPrefixOf s.data

/-- Python `repr` of an argument value, as interpolated into
f-strings. -/
def reprArgVal : ArgVal → String
  | ArgVal.s v => "\x27" ++ v ++ "\x27"
  | ArgVal.i v => String.mk (intChars v)
  | ArgVal.b true => "True"
  | ArgVal.b false => "False"

/-- Python `repr` of the argument dictionary (`f"{arguments}"`). -/
def formatArgs (args : Args) : String :=
  "\x7b" ++ String.intercalate ", "
    (args.map (fun kv => "\x27" ++ kv.1 ++ "\x27: " ++ reprArgVal kv.2)) ++ "\x7d"

/-- Containment of a character sequence in another. -/
def isInfixChars (needle : List Char) : List Char → Bool
  | [] => needle.isEmpty
  | c :: rest => needle.isPrefixOf (c :: rest) || isInfixChars needle rest

/-- Python `"not found" in str(e).lower()`. -/
def mentionsNotFound (e : String) : Bool :=
  isInfixChars "not found".data (pyLower e).data

/-- The session-cache marker message of `_execute_tool`
(`self.function_cache.get(cache_key, 'Result not found in cache')`). -/
def cachedMarkerMsg (cached : Option String) : String :=
  "[CACHED] This exact function call was already made in this research session. Result: "
    ++ cached.getD "Result not found in cache"

/-- The error message produced by `_execute_tool` when the underlying
operation raises, with the argument hint appended for not-found style
failures. -/
def errorMsg (tool_name : String) (arguments : Args) (e : String) : String :=
  let base := "Error executing " ++ tool_name ++ ": " ++ e
  if mentionsNotFound e then
    base ++
      "\nSuggestion: Check if the parameter values are correct. Available arguments were: "
      ++ formatArgs arguments
  else base

/-- `_execute_tool` from src/pokemon_research.py.  Returns the result
text, the updated agent state and the number of underlying tool
invocations performed (ghost instrumentation: `1` exactly when
`func(**arguments)` was applied). -/
def execute_tool (env : ToolEnv) (st : AgentState) (tool_name : String)
    (arguments : Args) : String × AgentState × Nat :=
  let cache_key := cacheKey tool_name arguments
  match lookupAssoc st.function_cache cache_key with
  | some cached => (cached, st, 0)
  | none =>
    if cache_key ∈ st.current_session_calls then
      (cachedMarkerMsg (lookupAssoc st.function_cache cache_key), st, 0)
    else
      match lookupFn env.tool_functions tool_name with
      | none => ("Tool " ++ tool_name ++ " not found", st, 0)
      | some func =>
        match func arguments with
        | Except.ok ref =>
          let result_json := jsonDumps (explore_object_recursively env.heap ref 4 0)
          (result_json,
           { function_cache := setAssoc st.function_cache cache_key result_json,
             current_session_calls := addSet st.current_session_calls cache_key,
             knowledge_base := setAssoc st.knowledge_base cache_key ref }, 1)
        | Except.error e =>
          let emsg := errorMsg tool_name arguments e
          (emsg,
           { function_cache := setAssoc st.function_cache cache_key emsg,
             current_session_calls := addSet st.current_session_calls cache_key,
             knowledge_base := st.knowledge_base }, 1)

/-- `clear_cache` from src/pokemon_research.py: clears the function
cache and the session call set (the knowledge base is kept). -/
def clear_cache (st : AgentState) : AgentState :=
  { st with function_cache := [], current_session_calls := [] }

/-- A conversation message. -/
inductive Msg where
  | system (content : String)
  | user (content : String)
  | assistant (content : Option String) (tool_calls : List (String × Args))
  | tool (name : String) (content : String)
deriving DecidableEq

/-- One response of the reasoning service: a message carrying optional
text content and a (possibly empty) list of requested tool calls, or a
raised transport error. -/
inductive ModelResponse where
  | message (content : Option String) (tool_calls : List (String × Args))
  | raise (err : String)

/-- State threaded through the research loop. -/
structure LoopSt where
  agent : AgentState
  messages : List Msg
  history : List (String × Args)
  cached_calls : Nat
  invocations : Nat

/-- Removal of the rogue wrapper keys `args`/`kwargs` from a parsed
argument object (`arguments.pop(rogue_arg)` for both keys). -/
def stripArgs (args : Args) : Args :=
  args.filter (fun kv => !(decide (kv.1 = "args") || decide (kv.1 = "kwargs")))

/-- Dispatch of the tool calls of one assistant message, in order:
strip wrapper keys, append to the call history, execute, count
`[CACHED]` results and append the tool message. -/
def processCalls (env : ToolEnv) : List (String × Args) → LoopSt → LoopSt
  | [], st => st
  | (name, rawArgs) :: rest, st =>
    let args := stripArgs rawArgs
    let er := execute_tool env st.agent name args
    processCalls env rest
      { agent := er.2.1,
        messages := st.messages ++ [Msg.tool name er.1],
        history := st.history ++ [(name, args)],
        cached_calls := st.cached_calls + (if isCachedMarker er.1 then 1 else 0),
        invocations := st.invocations + er.2.2 }

/-- The iteration loop of `research`: at most `fuel` remaining
iterations, reading the reasoning-service responses from `script` at
index `i`.  Returns the final loop state, the `final_response` variable
and the number of loop iterations entered (a raised transport error is
caught by the `except` of the loop body and breaks the loop). -/
def runLoop (env : ToolEnv) (script : Nat → ModelResponse) :
    Nat → Nat → LoopSt → LoopSt × Option String × Nat
  | 0, _, st => (st, none, 0)
  | fuel + 1, i, st =>
    match script i with
    | ModelResponse.raise _ => (st, none, 1)
    | ModelResponse.message content tool_calls =>
      if tool_calls.isEmpty then
        ({ st with messages := st.messages ++ [Msg.assistant content tool_calls] },
         content, 1)
      else
        let st1 := { st with messages := st.messages ++ [Msg.assistant content tool_calls] }
        let st2 := processCalls env tool_calls st1
        let r := runLoop env script fuel (i + 1) st2
        (r.1, r.2.1, r.2.2 + 1)

/-- Extraction of the tool-role messages into (tool, content) pairs
(`_synthesize_knowledge`, collection of `tool_results`). -/
def extract_tool_results (messages : List Msg) : List (String × String) :=
  messages.filterMap (fun m =>
    match m with
    | Msg.tool name content => some (name, content)
    | _ => none)

/-- Python `s[:200]`. -/
def pyTake200 (s : String) : String := String.mk (s.data.take 200)

/-- `_create_fallback_summary` from src/pokemon_research.py: the
deterministic summary built from the query, the recorded calls and the
collected tool results. -/
def create_fallback_summary (query : String) (function_calls : List (String × Args))
    (tool_results : List (String × String)) : String :=
  let s0 := "Pokemon Research Results for: " ++ query ++ "\n\n"
  let s1 :=
    if function_calls.isEmpty then s0
    else s0 ++ "Research conducted using " ++ natToString function_calls.length ++
      " tool calls:\n" ++ String.join (function_calls.map (fun c =>
        "- " ++ c.1 ++ " with parameters: " ++ formatArgs c.2 ++ "\n"))
  if tool_results.isEmpty then
    s1 ++ "\nNo data was successfully retrieved. Please try rephrasing your query or check if the Pokemon names/terms are correct."
  else
    s1 ++ "\nData collected from " ++ natToString tool_results.length ++
      " successful queries:\n" ++ String.join (tool_results.map (fun tr =>
        "- " ++ tr.1 ++ ": " ++ pyTake200 tr.2 ++ "...\n"))

/-- `_synthesize_knowledge` from src/pokemon_research.py: the synthesis
request to the reasoning service is modeled by its outcome `synthResp`;
on failure the deterministic fallback summary is returned. -/
def synthesize_knowledge (synthResp : Except String String) (query : String)
    (messages : List Msg) (function_calls : List (String × Args)) : String :=
  match synthResp with
  | Except.ok content => content
  | Except.error _ =>
    create_fallback_summary query function_calls (extract_tool_results messages)

/-- The deterministic no-data message of `research`. -/
def noDataMsg (query : String) : String :=
  "I wasn\x27t able to collect specific data for your query: \x27" ++ query ++
    "\x27. This could be due to:\n- Pokemon names or terms not being recognized\n- API connectivity issues\n- The specific data not being available in the Pokemon database\n\nPlease try rephrasing your query or using more specific Pokemon names."

/-- First line of the system prompt of `research` (the prompt text is
behaviorally inert in this model). -/
def system_prompt : String :=
  "You are a Pokemon research assistant with access to the pokebase library functions."

/-- Python truthiness of the `final_response` variable
(`Optional[str]`: `None` and the empty string are falsy). -/
def truthy : Option String → Bool
  | none => false
  | some s => !(decide (s = ""))

/-- The result dictionary of a non-simulation `research` call. -/
structure ResearchResult where
  results : String
  reasoning : List (String × Args)
  success : Bool
  iterations_used : Nat
  knowledge_entries : Nat
  cached_calls : Nat
  unique_calls : Nat
  efficiency_ratio : String

/-- A `research` return value: the simulation branch returns a
dictionary of a different shape (its `reasoning` entry is a string and
it has no `knowledge_entries`/`efficiency_ratio` keys). -/
inductive ResearchReturn where
  | simulated (results reasoning : String) (success : Bool)
      (iterations_used cached_calls unique_calls : Nat)
  | answered (r : ResearchResult)

/-- The loop state at the start of a research invocation: session set
cleared, conversation seeded with the system prompt and the query. -/
def initLoopSt (agent : AgentState) (query : String) : LoopSt :=
  { agent := { agent with current_session_calls := [] },
    messages := [Msg.system system_prompt, Msg.user query],
    history := [], cached_calls := 0, invocations := 0 }

/-- `research` from src/pokemon_research.py.  The reasoning service is
modeled by the response `script` (one response per loop iteration) and
the synthesis outcome `synthResp`.  The first component is `Except.error`
exactly when the Python function raises: with `max_iterations = 0` the
`for` loop body never runs, the local `iteration` stays unbound and the
construction of the result dictionary raises `UnboundLocalError`.  The
second component is the agent state after the call. -/
def research (env : ToolEnv) (script : Nat → ModelResponse)
    (synthResp : Except String String) (query : String) (max_iterations : Nat)
    (simulation : Bool) (agent : AgentState) :
    Except String ResearchReturn × AgentState :=
  let agent0 := { agent with current_session_calls := [] }
  if simulation then
    (Except.ok (ResearchReturn.simulated
      "Here\x27s the result of my research based on simulated Pokemon data collection..."
      "Reasoning is provided as a sequence of pokebase function calls" true 0 0 0),
     agent0)
  else
    let lr := runLoop env script max_iterations 0 (initLoopSt agent query)
    let st := lr.1
    let final_response := lr.2.1
    let n := lr.2.2
    let unique_calls := st.history.length - st.cached_calls
    let rs :=
      if truthy final_response then (final_response.getD "", true)
      else if !st.history.isEmpty then
        (synthesize_knowledge synthResp query st.messages st.history, true)
      else (noDataMsg query, false)
    if n = 0 then
      (Except.error
        "UnboundLocalError: local variable \x27iteration\x27 referenced before assignment",
       st.agent)
    else
      (Except.ok (ResearchReturn.answered
        { results := rs.1, reasoning := st.history, success := rs.2,
          iterations_used := min n max_iterations,
          knowledge_entries := st.agent.knowledge_base.length,
          cached_calls := st.cached_calls, unique_calls := unique_calls,
          efficiency_ratio :=
            if st.history.isEmpty then "0/0"
            else natToString unique_calls ++ "/" ++ natToString st.history.length }),
       st.agent)

/-- The reachable agent states: the freshly constructed agent, and the
states produced by the public mutating methods `research` and
`clear_cache`. -/
inductive Reachable (env : ToolEnv) : AgentState → Prop where
  | init : Reachable env initState
  | research_step {s : AgentState} (script : Nat → ModelResponse)
      (synthResp : Except String String) (query : String)
      (max_iterations : Nat) (simulation : Bool) :
      Reachable env s →
      Reachable env (research env script synthResp query max_iterations simulation s).2
  | clear_step {s : AgentState} : Reachable env s → Reachable env (clear_cache s)

/-- The state invariant behind claim C10: every session-set key is a
durable cache key, and no durable cache value carries the `[CACHED]`
marker prefix. -/
def GoodState (st : AgentState) : Prop :=
  (∀ k ∈ st.current_session_calls, (lookupAssoc st.function_cache k).isSome = true) ∧
  (∀ kv ∈ st.function_cache, isCachedMarker kv.2 = false)

/-- Witness tool operation succeeding on `name = "pikachu"`. -/
def fPokemonW : Args → Except String Nat := fun args =>
  if ("name", ArgVal.s "pikachu") ∈ args then Except.ok 1
  else Except.error "pokemon not found"

/-- Witness tool operation that always raises a not-found error. -/
def fBerryW : Args → Except String Nat := fun _ => Except.error "berry not found"

/-- Concrete witness environment: address 1 holds a Pokemon-like object,
and the tool table has one operation that succeeds on
`name = "pikachu"` and one that always raises. -/
def envW : ToolEnv :=
  { heap := fun r =>
      if r = 1 then HObj.pyobj [("name", 2), ("_private", 0)]
      else if r = 2 then HObj.prim (Prim.pstr "pikachu")
      else HObj.pynone,
    tool_functions := [("pokebase_pokemon", fPokemonW), ("pokebase_berry", fBerryW)] }

/-- Witness script: one tool-call request, then a final answer. -/
def scriptW : Nat → ModelResponse
  | 0 => ModelResponse.message none
      [("pokebase_pokemon", [("name", ArgVal.s "pikachu")])]
  | _ => ModelResponse.message (some "Pikachu is an Electric-type Pokemon.") []

/-- Script returning an immediate final answer. -/
def scriptFinal : Nat → ModelResponse :=
  fun _ => ModelResponse.message (some "done") []

/-- Trivial environment with an empty tool table. -/
def envTriv : ToolEnv := { heap := fun _ => HObj.pynone, tool_functions := [] }

/-- A cyclic heap: address 0 holds a list whose only element is the list
itself. -/
def hCyc : Heap := fun _ => HObj.pylist [0]

/-- The research result of `scriptFinal` against `envTriv` with budget 4
(used by witnesses). -/
def resW : ResearchResult :=
  { results := "done", reasoning := [], success := true, iterations_used := 1,
    knowledge_entries := 0, cached_calls := 0, unique_calls := 0,
    efficiency_ratio := "0/0" }

end PokeAgent

namespace PokeApp

theorem find?_append_of_none {α : Type} {p : α → Bool} {l₁ l₂ : List α}
    (h : ∀ a ∈ l₁, p a = false) : (l₁ ++ l₂).find? p = l₂.find? p := by
  induction l₁ with
  | nil => rfl
  | cons a as ih =>
    simp only [List.cons_append, List.find?]
    rw [h a (by simp)]
    exact ih fun a ha => h a (by simp [ha])

theorem filter_no_match (db : List ResearchRow) (qh : String) (now : Nat) :
    ∀ r ∈ db.filter (fun r => !(decide (r.query_hash = qh))), rowMatches qh now r = false := by
  intro r hr
  rw [List.mem_filter] at hr
  simp only [Bool.not_eq_true', decide_eq_false_iff_not] at hr
  simp [rowMatches, hr.2]

/-- After a store, the lookup of any query with the same normalized text
finds exactly the stored row. -/
theorem find?_after_store (md5 : String → String) (db : List ResearchRow) (now : Nat)
    (q q' results : String) (urls : Option String) (cache_hours : Nat)
    (hnorm : pyStrip (pyLower q') = pyStrip (pyLower q)) (hfresh : 0 < cache_hours) :
    (cache_research md5 db now q results urls cache_hours).find?
        (rowMatches (hash_query md5 q') now) =
      some { query_hash := hash_query md5 q, query := q, results := results,
             source_urls := urls, cached_at := now, expires_at := now + cache_hours,
             access_count := 0 } := by
  have hq : hash_query md5 q' = hash_query md5 q := by
    unfold hash_query; rw [hnorm]
  unfold cache_research
  rw [hq, find?_append_of_none (filter_no_match db (hash_query md5 q) now)]
  simp [List.find?, rowMatches, hfresh]

/-- A fresh store is hit by any query with the same normalized text. -/
theorem lookup_after_store (md5 : String → String) (db : List ResearchRow) (now : Nat)
    (q q' results : String) (urls : Option String) (cache_hours : Nat)
    (hnorm : pyStrip (pyLower q') = pyStrip (pyLower q)) (hfresh : 0 < cache_hours) :
    (get_cached_research md5 (cache_research md5 db now q results urls cache_hours)
        now q').1 =
      some { results := results, source_urls := urls, cached_at := now } := by
  unfold get_cached_research
  simp only [find?_after_store md5 db now q q' results urls cache_hours hnorm hfresh]

/-- C4: in the exact cache strategy, after `store(q, a, ttl)` creates a
fresh non-expired entry, `lookup(q')` returns `a` for every query `q'`
equal to `q` up to letter case and leading/trailing whitespace:
`hash_query` lowercases and strips the query text before hashing, and
the lookup is an equality match on that hash among non-expired
entries. -/
theorem exact_cache_case_whitespace_insensitive (md5 : String → String)
    (db : List ResearchRow) (now : Nat) (q q' results : String)
    (urls : Option String) (cache_hours : Nat)
    (hnorm : pyStrip (pyLower q') = pyStrip (pyLower q)) (hfresh : 0 < cache_hours) :
    (get_cached_research md5 (cache_research md5 db now q results urls cache_hours)
        now q').1 =
      some { results := results, source_urls := urls, cached_at := now } :=
  lookup_after_store md5 db now q q' results urls cache_hours hnorm hfresh

/-- Witness for C4, instantiated at the example of spec section 8:
`lookup("  Charizard STATS ")` hits the entry of
`store("charizard stats", ...)`. -/
theorem exact_cache_case_whitespace_insensitive_witness :
    pyStrip (pyLower "  Charizard STATS ") = pyStrip (pyLower "charizard stats") ∧
      (0 : Nat) < 24 ∧
      (get_cached_research id
          (cache_research id [] 7 "charizard stats" "answer-payload" (some "urls") 24)
          7 "  Charizard STATS ").1 =
        some { results := "answer-payload", source_urls := some "urls", cached_at := 7 } :=
  ⟨by decide, by decide,
    exact_cache_case_whitespace_insensitive id [] 7 "charizard stats"
      "  Charizard STATS " "answer-payload" (some "urls") 24 (by decide) (by decide)⟩

theorem bumpFirst_append {qh : String} {now : Nat} {pref : List ResearchRow}
    (hpref : ∀ r ∈ pref, rowMatches qh now r = false) (row : ResearchRow)
    (hrow : rowMatches qh now row = true) :
    bumpFirst qh now (pref ++ [row]) =
      pref ++ [{ row with access_count := row.access_count + 1 }] := by
  induction pref with
  | nil =>
    simp only [List.nil_append]
    unfold bumpFirst
    rw [if_pos hrow]
  | cons a as ih =>
    have ha : rowMatches qh now a = false := hpref a (by simp)
    simp only [List.cons_append]
    unfold bumpFirst
    rw [if_neg (by simp [ha])]
    rw [ih fun r hr => hpref r (by simp [hr])]

theorem lookupN_shape (md5 : String → String) (now : Nat) (q : String) (N : Nat) :
    ∀ (pref : List ResearchRow) (row : ResearchRow),
    (∀ r ∈ pref, rowMatches (hash_query md5 q) now r = false) →
    row.query_hash = hash_query md5 q → now < row.expires_at →
    lookupN md5 now q N (pref ++ [row]) =
      pref ++ [{ row with access_count := row.access_count + N }] := by
  induction N with
  | zero => intro pref row _ _ _; rfl
  | succ n ih =>
    intro pref row hpref hhash hexp
    have hrow : rowMatches (hash_query md5 q) now row = true := by
      simp [rowMatches, hhash, hexp]
    show lookupN md5 now q n (get_cached_research md5 (pref ++ [row]) now q).2 = _
    have hfind : (pref ++ [row]).find? (rowMatches (hash_query md5 q) now) = some row := by
      rw [find?_append_of_none hpref]; simp [List.find?, hrow]
    unfold get_cached_research
    simp only [hfind]
    rw [bumpFirst_append hpref row hrow]
    rw [ih pref { row with access_count := row.access_count + 1 } hpref hhash hexp]
    have h1 : row.access_count + 1 + n = row.access_count + (n + 1) := by omega
    simp [h1]

/-- C8: each lookup hit increments the matched entry's access count by
exactly one (committed with the returned state), so `N` consecutive
hits increase it by exactly `N`; a store never increments the access
count, and a store that replaces an existing key resets it to the
schema default `0`. -/
theorem access_count_monotone_and_reset (md5 : String → String)
    (db : List ResearchRow) (now : Nat) (q results results' : String)
    (urls urls' : Option String) (hours hours' : Nat) (hfresh : 0 < hours) (N : Nat) :
    (lookupN md5 now q N (cache_research md5 db now q results urls hours)).find?
        (rowMatches (hash_query md5 q) now) =
      some { query_hash := hash_query md5 q, query := q, results := results,
             source_urls := urls, cached_at := now, expires_at := now + hours,
             access_count := N } ∧
    (cache_research md5 (lookupN md5 now q N (cache_research md5 db now q results urls hours))
          now q results' urls' hours').find?
        (fun r => decide (r.query_hash = hash_query md5 q)) =
      some { query_hash := hash_query md5 q, query := q, results := results',
             source_urls := urls', cached_at := now, expires_at := now + hours',
             access_count := 0 } := by
  have hshape := lookupN_shape md5 now q N
    (db.filter (fun r => !(decide (r.query_hash = hash_query md5 q))))
    { query_hash := hash_query md5 q, query := q, results := results,
      source_urls := urls, cached_at := now, expires_at := now + hours,
      access_count := 0 }
    (filter_no_match db (hash_query md5 q) now) rfl
    (Nat.lt_add_of_pos_right hfresh : now < now + hours)
  have hlt : now < now + hours := Nat.lt_add_of_pos_right hfresh
  constructor
  · show (lookupN md5 now q N (cache_research md5 db now q results urls hours)).find? _ = _
    unfold cache_research
    rw [hshape, find?_append_of_none (filter_no_match db (hash_query md5 q) now)]
    simp [List.find?, rowMatches, hlt]
  · unfold cache_research
    rw [find?_append_of_none]
    · simp [List.find?]
    · intro r hr
      rw [List.mem_filter] at hr
      simpa using hr.2

/-- Witness for C8 at a concrete database: three hits then a replacing
store. -/
theorem access_count_monotone_and_reset_witness :
    (0 : Nat) < 24 ∧
    (lookupN id 5 "pikachu" 3 (cache_research id [] 5 "pikachu" "ans" none 24)).find?
        (rowMatches (hash_query id "pikachu") 5) =
      some { query_hash := hash_query id "pikachu", query := "pikachu", results := "ans",
             source_urls := none, cached_at := 5, expires_at := 29, access_count := 3 } := by
  refine ⟨by decide, ?_⟩
  exact (access_count_monotone_and_reset id [] 5 "pikachu" "ans" "ans2" none none
    24 1 (by decide) 3).1

/-- Counterexample to C7 as stated: `cleanup_expired` does delete the
expired entries from both tables, but its Python body has no `return`
statement, so it returns `None` — not the count of removed entries
(here both tables lose one entry, so the claimed count would be `2`,
and indeed any `some` count is not returned). -/
theorem sweep_expired_returns_no_count_cex :
    (cleanup_expired [expiredResearchRow] [expiredResourceRow] 5).1.1 = [] ∧
    (cleanup_expired [expiredResearchRow] [expiredResourceRow] 5).1.2 = [] ∧
    (cleanup_expired [expiredResearchRow] [expiredResourceRow] 5).2 = none ∧
    ∀ n : Nat, (cleanup_expired [expiredResearchRow] [expiredResourceRow] 5).2 ≠ some n := by
  refine ⟨by decide, by decide, rfl, fun n h => by simp [cleanup_expired] at h⟩

/-- C7 (amended): an entry stored with `ttl = 0` (expiry equal to now)
is absent from lookup immediately after the store, and
`cleanup_expired` deletes exactly the entries past expiry from both
cache tables in one operation; it returns `None`, not a removal
count. -/
theorem ttl_zero_absent_and_sweep (md5 : String → String) (db : List ResearchRow)
    (now : Nat) (q results : String) (urls : Option String) :
    (get_cached_research md5 (cache_research md5 db now q results urls 0) now q).1 =
        none ∧
    (∀ (research : List ResearchRow) (resource : List ResourceRow) (t : Nat),
      (∀ r : ResearchRow,
        r ∈ (cleanup_expired research resource t).1.1 ↔ r ∈ research ∧ ¬ r.expires_at < t) ∧
      (∀ r : ResourceRow,
        r ∈ (cleanup_expired research resource t).1.2 ↔ r ∈ resource ∧ ¬ r.expires_at < t) ∧
      (cleanup_expired research resource t).2 = none) := by
  constructor
  · unfold get_cached_research
    have hfind : (cache_research md5 db now q results urls 0).find?
        (rowMatches (hash_query md5 q) now) = none := by
      unfold cache_research
      rw [find?_append_of_none (filter_no_match db (hash_query md5 q) now)]
      simp [List.find?, rowMatches]
    simp only [hfind]
  · intro research resource t
    refine ⟨fun r => ?_, fun r => ?_, rfl⟩
    · simp [cleanup_expired, List.mem_filter]
    · simp [cleanup_expired, List.mem_filter]

/-- Witness for C7 (amended) at a concrete store. -/
theorem ttl_zero_absent_and_sweep_witness :
    (get_cached_research id (cache_research id [] 5 "q" "r" none 0) 5 "q").1 = none ∧
    (cleanup_expired [expiredResearchRow] [] 9).1.1 = [] := by
  refine ⟨(ttl_zero_absent_and_sweep id [] 5 "q" "r" none).1, by decide⟩

end PokeApp

namespace SemanticCache

theorem argmaxFirst_eq_none {α : Type} (f : α → ℚ) :
    ∀ l : List α, argmaxFirst f l = none ↔ l = [] := by
  intro l
  cases l with
  | nil => simp [argmaxFirst]
  | cons a as =>
    simp only [argmaxFirst]
    cases h : argmaxFirst f as with
    | none => simp
    | some b => by_cases hab : f a < f b <;> simp [hab]

theorem argmaxFirst_spec {α : Type} (f : α → ℚ) :
    ∀ (l : List α) (e : α), argmaxFirst f l = some e →
      ∃ l1 l2, l = l1 ++ e :: l2 ∧ (∀ x ∈ l1, f x < f e) ∧ (∀ x ∈ l2, f x ≤ f e) := by
  intro l
  induction l with
  | nil => intro e h; simp [argmaxFirst] at h
  | cons a as ih =>
    intro e h
    cases hm : argmaxFirst f as with
    | none =>
      simp only [argmaxFirst, hm] at h
      injection h with h'
      subst h'
      have has : as = [] := (argmaxFirst_eq_none f as).mp hm
      subst has
      exact ⟨[], [], rfl, by simp, by simp⟩
    | some b =>
      simp only [argmaxFirst, hm] at h
      by_cases hab : f a < f b
      · rw [if_pos hab] at h
        injection h with h'
        subst h'
        obtain ⟨l1, l2, heq, h1, h2⟩ := ih b hm
        refine ⟨a :: l1, l2, by simp [heq], ?_, h2⟩
        intro x hx
        rcases List.mem_cons.mp hx with hx | hx
        · subst hx; exact hab
        · exact h1 x hx
      · rw [if_neg hab] at h
        injection h with h'
        subst h'
        push_neg at hab
        obtain ⟨l1, l2, heq, h1, h2⟩ := ih b hm
        refine ⟨[], as, rfl, by simp, ?_⟩
        intro x hx
        rw [heq] at hx
        rcases List.mem_append.mp hx with hx | hx
        · exact le_trans (le_of_lt (h1 x hx)) hab
        · rcases List.mem_cons.mp hx with hx | hx
          · subst hx; exact hab
          · exact le_trans (h2 x hx) hab

theorem argmaxFirst_le {α : Type} (f : α → ℚ) (l : List α) (e : α)
    (h : argmaxFirst f l = some e) : ∀ x ∈ l, f x ≤ f e := by
  obtain ⟨l1, l2, heq, h1, h2⟩ := argmaxFirst_spec f l e h
  intro x hx
  rw [heq] at hx
  rcases List.mem_append.mp hx with hx | hx
  · exact le_of_lt (h1 x hx)
  · rcases List.mem_cons.mp hx with hx | hx
    · subst hx; exact le_rfl
    · exact h2 x hx

theorem argmaxFirst_mem {α : Type} (f : α → ℚ) (l : List α) (e : α)
    (h : argmaxFirst f l = some e) : e ∈ l := by
  obtain ⟨l1, l2, heq, _, _⟩ := argmaxFirst_spec f l e h
  rw [heq]
  simp

/-- C5: the semantic lookup considers exactly the non-expired entries,
is a hit if and only if the maximum similarity reaches the threshold
(similarity exactly at the threshold is a hit, strictly below every
entry is a miss), and a hit returns the entry with the highest
similarity, ties broken by first-encountered order. -/
theorem semantic_lookup_threshold_and_argmax {d : Nat}
    (sim : (Fin d → ℚ) → (Fin d → ℚ) → ℚ) (encode : String → Fin d → ℚ)
    (threshold : ℚ) (entries : List (SemEntry d)) (now : Nat) (q : String) :
    (∀ e, semantic_lookup sim encode threshold entries now q = some e →
      threshold ≤ sim (encode q) e.embedding ∧
      ∃ l1 l2, entries.filter (fun x => decide (now < x.expires_at)) = l1 ++ e :: l2 ∧
        (∀ x ∈ l1, sim (encode q) x.embedding < sim (encode q) e.embedding) ∧
        (∀ x ∈ l2, sim (encode q) x.embedding ≤ sim (encode q) e.embedding)) ∧
    ((∃ e' ∈ entries.filter (fun x => decide (now < x.expires_at)),
        threshold ≤ sim (encode q) e'.embedding) →
      (semantic_lookup sim encode threshold entries now q).isSome = true) ∧
    ((∀ e' ∈ entries.filter (fun x => decide (now < x.expires_at)),
        sim (encode q) e'.embedding < threshold) →
      semantic_lookup sim encode threshold entries now q = none) := by
  unfold semantic_lookup
  simp only []
  refine ⟨?_, ?_, ?_⟩
  · intro e h
    cases hm : argmaxFirst (fun e' => sim (encode q) e'.embedding)
        (entries.filter (fun x => decide (now < x.expires_at))) with
    | none => simp only [hm] at h; exact Option.noConfusion h
    | some best =>
      simp only [hm] at h
      by_cases hth : threshold ≤ sim (encode q) best.embedding
      · rw [if_pos hth] at h
        injection h with h'
        subst h'
        exact ⟨hth, argmaxFirst_spec _ _ _ hm⟩
      · rw [if_neg hth] at h
        exact absurd h (by simp)
  · rintro ⟨e', he', hth⟩
    cases hm : argmaxFirst (fun e' => sim (encode q) e'.embedding)
        (entries.filter (fun x => decide (now < x.expires_at))) with
    | none =>
      have := (argmaxFirst_eq_none _ _).mp hm
      rw [this] at he'
      exact absurd he' (by simp)
    | some best =>
      have hle := argmaxFirst_le _ _ _ hm e' he'
      simp only [hm]
      rw [if_pos (le_trans hth hle)]
      rfl
  · intro hall
    cases hm : argmaxFirst (fun e' => sim (encode q) e'.embedding)
        (entries.filter (fun x => decide (now < x.expires_at))) with
    | none => simp only [hm]
    | some best =>
      have hmem := argmaxFirst_mem _ _ _ hm
      simp only [hm]
      rw [if_neg (not_le.mpr (hall best hmem))]

/-- Witness for C5 at concrete synthetic embeddings testing the
threshold boundary: similarity exactly at the default threshold is a
hit; strictly below it is a miss. -/
theorem semantic_lookup_threshold_witness :
    (semantic_lookup simW encW defaultThreshold [entryAtThreshold] 0 "q").isSome = true ∧
    semantic_lookup simW encW defaultThreshold [entryBelowThreshold] 0 "q" = none := by
  constructor
  · refine (semantic_lookup_threshold_and_argmax simW encW defaultThreshold
      [entryAtThreshold] 0 "q").2.1 ⟨entryAtThreshold, ?_, ?_⟩
    · simp [entryAtThreshold]
    · show defaultThreshold ≤ simW (encW "q") entryAtThreshold.embedding
      norm_num [defaultThreshold, simW, encW, entryAtThreshold]
  · refine (semantic_lookup_threshold_and_argmax simW encW defaultThreshold
      [entryBelowThreshold] 0 "q").2.2 ?_
    intro e' he'
    have he : e' = entryBelowThreshold := by
      simpa [entryBelowThreshold] using he'
    subst he
    show simW (encW "q") entryBelowThreshold.embedding < defaultThreshold
    norm_num [defaultThreshold, simW, encW, entryBelowThreshold]

end SemanticCache

namespace PokeAgent

theorem elistOfList_length (f : Nat → Explored) :
    ∀ l : List Nat, (elistOfList f l).length = l.length := by
  intro l
  induction l with
  | nil => rfl
  | cons r rs ih => simp [elistOfList, EList.length, ih]

theorem edictOfList_length (f : Nat → Explored) :
    ∀ l : List (String × Nat), (edictOfList f l).length = l.length := by
  intro l
  induction l with
  | nil => rfl
  | cons kv rest ih => cases kv; simp [edictOfList, EDict.length, ih]

theorem edepthList_elistOfList_le (f : Nat → Explored) (b : Nat)
    (hb : ∀ r, edepth (f r) ≤ b) :
    ∀ l : List Nat, edepthList (elistOfList f l) ≤ b := by
  intro l
  induction l with
  | nil => simp [elistOfList, edepthList]
  | cons r rs ih =>
    simp only [elistOfList, edepthList, max_le_iff]
    exact ⟨hb r, ih⟩

theorem edepthDict_edictOfList_le (f : Nat → Explored) (b : Nat)
    (hb : ∀ r, edepth (f r) ≤ b) :
    ∀ l : List (String × Nat), edepthDict (edictOfList f l) ≤ b := by
  intro l
  induction l with
  | nil => simp [edictOfList, edepthDict]
  | cons kv rest ih =>
    cases kv
    simp only [edictOfList, edepthDict, max_le_iff]
    exact ⟨hb _, ih⟩

theorem edepth_exploreFuel (h : Heap) :
    ∀ (fuel r : Nat), edepth (exploreFuel h fuel r) ≤ fuel + 1 := by
  intro fuel
  induction fuel with
  | zero => intro r; show edepth truncatedMarker ≤ 1; decide
  | succ n ih =>
    intro r
    simp only [exploreFuel]
    cases hr : h r with
    | pynone => simp [edepth]
    | prim p => simp [edepth]
    | pylist elems =>
      cases elems with
      | nil => simp [edepth, edepthList]
      | cons x xs =>
        simp only [List.isEmpty_cons, if_neg (by decide : ¬ false = true)]
        simp only [edepth]
        have := edepthList_elistOfList_le (exploreFuel h n) (n + 1) ih
          ((x :: xs).take (min 5 (x :: xs).length))
        omega
    | pydict entries =>
      simp only [edepth]
      have := edepthDict_edictOfList_le (exploreFuel h n) (n + 1) ih (entries.take 15)
      omega
    | pyobj attrs =>
      simp only [edepth]
      have := edepthDict_edictOfList_le (exploreFuel h n) (n + 1) ih
        (attrs.filter (fun kv => !(List.isPrefixOf ['_'] kv.1.data)))
      omega
    | pyother ty srepr =>
      cases srepr <;> simp [edepth]

/-- C6: for every heap value (cyclic object graphs included) and every
depth budget, `_explore_object_recursively` is total and returns a
bounded structure: the truncated-marker sentinel once the depth counter
reaches `max_depth`; primitives (and `None`) unchanged; sequences
sampled to at most 5 leading elements; mappings truncated to at most 15
leading entries; objects expanded to their public (non-underscore)
attributes; everything else stringified, with a type-tag placeholder
instead of an exception when stringification fails; and the nesting
depth of the result is bounded by the remaining depth budget. -/
theorem explorer_terminates_bounded (h : Heap) (r : Nat)
    (max_depth current_depth : Nat) :
    (max_depth ≤ current_depth →
      explore_object_recursively h r max_depth current_depth = truncatedMarker) ∧
    (current_depth < max_depth →
      (h r = HObj.pynone →
        explore_object_recursively h r max_depth current_depth = Explored.enone) ∧
      (∀ p, h r = HObj.prim p →
        explore_object_recursively h r max_depth current_depth = Explored.eprim p) ∧
      (∀ elems, h r = HObj.pylist elems →
        explore_object_recursively h r max_depth current_depth =
          Explored.elist (elistOfList
            (fun x => explore_object_recursively h x max_depth (current_depth + 1))
            (elems.take (min 5 elems.length))) ∧
        (elistOfList
            (fun x => explore_object_recursively h x max_depth (current_depth + 1))
            (elems.take (min 5 elems.length))).length ≤ 5) ∧
      (∀ entries, h r = HObj.pydict entries →
        explore_object_recursively h r max_depth current_depth =
          Explored.edict (edictOfList
            (fun x => explore_object_recursively h x max_depth (current_depth + 1))
            (entries.take 15)) ∧
        (edictOfList
            (fun x => explore_object_recursively h x max_depth (current_depth + 1))
            (entries.take 15)).length ≤ 15) ∧
      (∀ attrs, h r = HObj.pyobj attrs →
        explore_object_recursively h r max_depth current_depth =
          Explored.edict (edictOfList
            (fun x => explore_object_recursively h x max_depth (current_depth + 1))
            (attrs.filter (fun kv => !(List.isPrefixOf ['_'] kv.1.data))))) ∧
      (∀ ty s, h r = HObj.pyother ty (some s) →
        explore_object_recursively h r max_depth current_depth =
          Explored.eprim (Prim.pstr s)) ∧
      (∀ ty, h r = HObj.pyother ty none →
        explore_object_recursively h r max_depth current_depth =
          Explored.eprim (Prim.pstr ("<" ++ ty ++ " object>")))) ∧
    edepth (explore_object_recursively h r max_depth current_depth) ≤
      (max_depth - current_depth) + 1 := by
  refine ⟨?_, ?_, edepth_exploreFuel h (max_depth - current_depth) r⟩
  · intro hle
    unfold explore_object_recursively
    rw [Nat.sub_eq_zero_of_le hle]
    rfl
  · intro hlt
    have hfe : max_depth - current_depth = (max_depth - (current_depth + 1)) + 1 := by
      omega
    unfold explore_object_recursively
    rw [hfe]
    refine ⟨?_, ?_, ?_, ?_, ?_, ?_, ?_⟩
    · intro heq; simp [exploreFuel, heq]
    · intro p heq; simp [exploreFuel, heq]
    · intro elems heq
      constructor
      · cases elems with
        | nil => simp [exploreFuel, heq, elistOfList]
        | cons x xs => simp [exploreFuel, heq]
      · rw [elistOfList_length]
        simp only [List.length_take]
        omega
    · intro entries heq
      refine ⟨by simp [exploreFuel, heq], ?_⟩
      rw [edictOfList_length]
      simp only [List.length_take]
      omega
    · intro attrs heq; simp [exploreFuel, heq]
    · intro ty s heq; simp [exploreFuel, heq]
    · intro ty heq; simp [exploreFuel, heq]

/-- Witness for C6 on a cyclic object graph: exploration terminates with
the truncated marker at the depth limit, obeys the depth bound, and
samples the self-referential list. -/
theorem explorer_terminates_bounded_witness :
    explore_object_recursively hCyc 0 4 4 = truncatedMarker ∧
    edepth (explore_object_recursively hCyc 0 4 0) ≤ 5 ∧
    explore_object_recursively hCyc 0 4 0 =
      Explored.elist (elistOfList (fun x => explore_object_recursively hCyc x 4 1)
        ([0].take (min 5 [0].length))) := by
  refine ⟨(explorer_terminates_bounded hCyc 0 4 4).1 (le_refl 4), ?_, ?_⟩
  · have hb := (explorer_terminates_bounded hCyc 0 4 0).2.2
    simpa using hb
  · exact (((explorer_terminates_bounded hCyc 0 4 0).2.1 (by omega)).2.2.1 [0] rfl).1

end PokeAgent

namespace PokeAgent

theorem marker_false_of_head {c : Char} {t : List Char} (hc : c ≠ '[') :
    markerChars.isPrefixOf (c :: t) = false := by
  have hb : ('[' == c) = false := beq_eq_false_iff_ne.mpr (Ne.symm hc)
  simp [markerChars, List.isPrefixOf, hb]

theorem marker_false_of_two {c : Char} {t : List Char} (hc : c ≠ 'C') :
    markerChars.isPrefixOf ('[' :: c :: t) = false := by
  have hb : ('C' == c) = false := beq_eq_false_iff_ne.mpr (Ne.symm hc)
  simp [markerChars, List.isPrefixOf, hb]

theorem digitChar_ne_lbracket (d : Nat) : digitChar d ≠ '[' := by
  unfold digitChar
  split_ifs <;> decide

theorem natToCharsCore_ne_nil (fuel n : Nat) : natToCharsCore (fuel + 1) n ≠ [] := by
  unfold natToCharsCore
  split_ifs
  · simp
  · simp

theorem natToCharsCore_head_ne :
    ∀ fuel n c t, natToCharsCore fuel n = c :: t → c ≠ '[' := by
  intro fuel
  induction fuel with
  | zero => intro n c t h; exact absurd h (by simp [natToCharsCore])
  | succ m ih =>
    intro n c t h
    unfold natToCharsCore at h
    split_ifs at h with h10
    · injection h with h1 _
      rw [← h1]
      exact digitChar_ne_lbracket n
    · cases hm : natToCharsCore m (n / 10) with
      | nil =>
        rw [hm, List.nil_append] at h
        injection h with h1 _
        rw [← h1]
        exact digitChar_ne_lbracket _
      | cons c' t' =>
        rw [hm, List.cons_append] at h
        injection h with h1 _
        rw [← h1]
        exact ih (n / 10) c' t' hm

theorem intChars_head (v : Int) : ∃ c t, intChars v = c :: t ∧ c ≠ '[' := by
  cases v with
  | ofNat n =>
    show ∃ c t, natToChars n = c :: t ∧ c ≠ '['
    unfold natToChars
    cases hm : natToCharsCore (n + 1) n with
    | nil => exact absurd hm (natToCharsCore_ne_nil n n)
    | cons c t => exact ⟨c, t, rfl, natToCharsCore_head_ne (n + 1) n c t hm⟩
  | negSucc n => exact ⟨'-', _, rfl, by decide⟩

theorem jsonChars_not_marker (lvl : Nat) (e : Explored) :
    markerChars.isPrefixOf (jsonChars lvl e) = false := by
  cases e with
  | enone => rfl
  | eprim p =>
    cases p with
    | pstr s => exact marker_false_of_head (by decide)
    | pint n =>
      obtain ⟨c, t, hct, hc⟩ := intChars_head n
      show markerChars.isPrefixOf (primChars (Prim.pint n)) = false
      simp only [primChars, hct]
      exact marker_false_of_head hc
    | pfloat f =>
      obtain ⟨c, cs, hcs, hc⟩ := f.head_ok
      show markerChars.isPrefixOf f.chars = false
      rw [hcs]
      refine marker_false_of_head ?_
      rcases hc with h | h
      · rw [h]; decide
      · intro he; rw [he] at h; exact absurd h (by decide)
    | pbool b => cases b <;> rfl
  | elist items =>
    cases items with
    | nil => rfl
    | cons x xs => exact marker_false_of_two (by decide)
  | edict entries =>
    cases entries with
    | nil => rfl
    | cons k v kvs => exact marker_false_of_head (by decide)

theorem jsonDumps_not_marker (e : Explored) : isCachedMarker (jsonDumps e) = false :=
  jsonChars_not_marker 0 e

theorem isCachedMarker_head (s : String) (c : Char) (t : List Char)
    (h : s.data = c :: t) (hc : c ≠ '[') : isCachedMarker s = false := by
  unfold isCachedMarker
  rw [h]
  exact marker_false_of_head hc

theorem errorMsg_not_marker (tool_name : String) (args : Args) (e : String) :
    isCachedMarker (errorMsg tool_name args e) = false := by
  unfold errorMsg
  obtain ⟨t, ht⟩ : ∃ t, ("Error executing " ++ tool_name ++ ": " ++ e).data = 'E' :: t := by
    simp only [String.data_append]
    exact ⟨_, rfl⟩
  split_ifs
  · refine isCachedMarker_head _ 'E'
      (t ++
        "\nSuggestion: Check if the parameter values are correct. Available arguments were: ".data
        ++ (formatArgs args).data) ?_ (by decide)
    rw [String.data_append, String.data_append, ht]
    simp
  · exact isCachedMarker_head _ 'E' t ht (by decide)

theorem toolNotFound_not_marker (name : String) :
    isCachedMarker ("Tool " ++ name ++ " not found") = false := by
  obtain ⟨t, ht⟩ : ∃ t, ("Tool " ++ name ++ " not found").data = 'T' :: t := by
    simp only [String.data_append]
    exact ⟨_, rfl⟩
  exact isCachedMarker_head _ 'T' t ht (by decide)

theorem lookupAssoc_setAssoc_self {α : Type} :
    ∀ (l : List (Key × α)) (k : Key) (v : α), lookupAssoc (setAssoc l k v) k = some v := by
  intro l
  induction l with
  | nil => intro k v; simp [setAssoc, lookupAssoc, List.find?]
  | cons kv t ih =>
    intro k v
    by_cases hk : kv.1 = k
    · simp [setAssoc, hk, lookupAssoc, List.find?]
    · simp only [setAssoc, if_neg hk]
      have := ih k v
      simpa [lookupAssoc, List.find?, hk] using this

theorem lookupAssoc_setAssoc_ne {α : Type} (k k' : Key) (hne : k' ≠ k) :
    ∀ (l : List (Key × α)) (v : α),
      lookupAssoc (setAssoc l k v) k' = lookupAssoc l k' := by
  intro l
  induction l with
  | nil =>
    intro v
    simp [setAssoc, lookupAssoc, List.find?, Ne.symm hne]
  | cons kv t ih =>
    intro v
    by_cases hk : kv.1 = k
    · simp [setAssoc, hk, lookupAssoc, List.find?, Ne.symm hne]
    · simp only [setAssoc, if_neg hk]
      by_cases hk' : kv.1 = k'
      · simp [lookupAssoc, List.find?, hk']
      · have := ih v
        simp only [lookupAssoc, List.find?] at this ⊢
        simpa [hk'] using this

theorem mem_setAssoc {α : Type} :
    ∀ (l : List (Key × α)) (k : Key) (v : α) (kv : Key × α),
      kv ∈ setAssoc l k v → kv ∈ l ∨ kv = (k, v) := by
  intro l
  induction l with
  | nil => intro k v kv h; simp [setAssoc] at h; exact Or.inr h
  | cons hd t ih =>
    intro k v kv h
    by_cases hk : hd.1 = k
    · simp only [setAssoc, if_pos hk] at h
      rcases List.mem_cons.mp h with h1 | h1
      · exact Or.inr h1
      · exact Or.inl (List.mem_cons_of_mem hd h1)
    · simp only [setAssoc, if_neg hk] at h
      rcases List.mem_cons.mp h with h1 | h1
      · exact Or.inl (by simp [h1])
      · rcases ih k v kv h1 with h2 | h2
        · exact Or.inl (List.mem_cons_of_mem hd h2)
        · exact Or.inr h2

theorem mem_addSet (l : List Key) (k k' : Key) (h : k' ∈ addSet l k) :
    k' ∈ l ∨ k' = k := by
  unfold addSet at h
  split_ifs at h with hm
  · exact Or.inl h
  · rcases List.mem_append.mp h with h1 | h1
    · exact Or.inl h1
    · exact Or.inr (List.mem_singleton.mp h1)

theorem lookupAssoc_mem {α : Type} (l : List (Key × α)) (k : Key) (v : α)
    (h : lookupAssoc l k = some v) : ∃ kv ∈ l, kv.2 = v := by
  unfold lookupAssoc at h
  cases hf : l.find? (fun kv => decide (kv.1 = k)) with
  | none => rw [hf] at h; exact absurd h (by simp)
  | some kv =>
    rw [hf] at h
    simp only [Option.map_some'] at h
    exact ⟨kv, List.mem_of_find?_eq_some hf, Option.some.inj h⟩

theorem execute_tool_hit (env : ToolEnv) (st : AgentState) (name : String) (a : Args)
    (v : String) (h : lookupAssoc st.function_cache (cacheKey name a) = some v) :
    execute_tool env st name a = (v, st, 0) := by
  unfold execute_tool
  simp [h]

theorem execute_tool_ok (env : ToolEnv) (st : AgentState) (name : String) (a : Args)
    (f : Args → Except String Nat) (ref : Nat)
    (hc : lookupAssoc st.function_cache (cacheKey name a) = none)
    (hs : cacheKey name a ∉ st.current_session_calls)
    (hfn : lookupFn env.tool_functions name = some f) (hok : f a = Except.ok ref) :
    execute_tool env st name a =
      (jsonDumps (explore_object_recursively env.heap ref 4 0),
       { function_cache := setAssoc st.function_cache (cacheKey name a)
           (jsonDumps (explore_object_recursively env.heap ref 4 0)),
         current_session_calls := addSet st.current_session_calls (cacheKey name a),
         knowledge_base := setAssoc st.knowledge_base (cacheKey name a) ref }, 1) := by
  unfold execute_tool
  simp [hc, hs, hfn, hok]

theorem execute_tool_err (env : ToolEnv) (st : AgentState) (name : String) (a : Args)
    (f : Args → Except String Nat) (e : String)
    (hc : lookupAssoc st.function_cache (cacheKey name a) = none)
    (hs : cacheKey name a ∉ st.current_session_calls)
    (hfn : lookupFn env.tool_functions name = some f) (herr : f a = Except.error e) :
    execute_tool env st name a =
      (errorMsg name a e,
       { function_cache := setAssoc st.function_cache (cacheKey name a)
           (errorMsg name a e),
         current_session_calls := addSet st.current_session_calls (cacheKey name a),
         knowledge_base := st.knowledge_base }, 1) := by
  unfold execute_tool
  simp [hc, hs, hfn, herr]

end PokeAgent

namespace PokeAgent

/-- C3: within one research invocation, dispatching the same
(tool name, arguments) pair a second time — the arguments canonicalized
by the order-independent key-sorted serialization — returns the
durable-cache text on the second dispatch, changes no state on the
second dispatch, and invokes the underlying tool operation at most once
per unique key. -/
theorem dispatcher_dedup (env : ToolEnv) (st : AgentState) (name : String)
    (a a' : Args) (f : Args → Except String Nat)
    (hsess : cacheKey name a ∉ st.current_session_calls)
    (hfn : lookupFn env.tool_functions name = some f)
    (hkey : cacheKey name a' = cacheKey name a) :
    (execute_tool env (execute_tool env st name a).2.1 name a').1 =
        (execute_tool env st name a).1 ∧
    (execute_tool env (execute_tool env st name a).2.1 name a').2.1 =
        (execute_tool env st name a).2.1 ∧
    (execute_tool env (execute_tool env st name a).2.1 name a').2.2 = 0 ∧
    (execute_tool env st name a).2.2 ≤ 1 ∧
    lookupAssoc (execute_tool env st name a).2.1.function_cache (cacheKey name a) =
      some (execute_tool env st name a).1 := by
  have hfive : lookupAssoc (execute_tool env st name a).2.1.function_cache
        (cacheKey name a) = some (execute_tool env st name a).1 ∧
      (execute_tool env st name a).2.2 ≤ 1 := by
    cases hc : lookupAssoc st.function_cache (cacheKey name a) with
    | some cached =>
      rw [execute_tool_hit env st name a cached hc]
      exact ⟨hc, Nat.zero_le 1⟩
    | none =>
      cases hf : f a with
      | ok ref =>
        rw [execute_tool_ok env st name a f ref hc hsess hfn hf]
        exact ⟨lookupAssoc_setAssoc_self _ _ _, le_refl 1⟩
      | error e =>
        rw [execute_tool_err env st name a f e hc hsess hfn hf]
        exact ⟨lookupAssoc_setAssoc_self _ _ _, le_refl 1⟩
  have h2 : lookupAssoc (execute_tool env st name a).2.1.function_cache
      (cacheKey name a') = some (execute_tool env st name a).1 := by
    rw [hkey]
    exact hfive.1
  rw [execute_tool_hit env (execute_tool env st name a).2.1 name a'
    (execute_tool env st name a).1 h2]
  exact ⟨rfl, rfl, rfl, hfive.2, hfive.1⟩

/-- Witness for C3: the same call with key-reordered arguments hits the
durable cache on the second dispatch, with exactly one underlying
invocation in total. -/
theorem dispatcher_dedup_witness :
    (execute_tool envW
        (execute_tool envW initState "pokebase_pokemon"
          [("name", ArgVal.s "pikachu"), ("game", ArgVal.i 1)]).2.1
        "pokebase_pokemon" [("game", ArgVal.i 1), ("name", ArgVal.s "pikachu")]).1 =
      (execute_tool envW initState "pokebase_pokemon"
        [("name", ArgVal.s "pikachu"), ("game", ArgVal.i 1)]).1 ∧
    (execute_tool envW
        (execute_tool envW initState "pokebase_pokemon"
          [("name", ArgVal.s "pikachu"), ("game", ArgVal.i 1)]).2.1
        "pokebase_pokemon" [("game", ArgVal.i 1), ("name", ArgVal.s "pikachu")]).2.2 = 0 ∧
    (execute_tool envW initState "pokebase_pokemon"
      [("name", ArgVal.s "pikachu"), ("game", ArgVal.i 1)]).2.2 ≤ 1 := by
  have h := dispatcher_dedup envW initState "pokebase_pokemon"
    [("name", ArgVal.s "pikachu"), ("game", ArgVal.i 1)]
    [("game", ArgVal.i 1), ("name", ArgVal.s "pikachu")] fPokemonW
    (by decide) rfl (by decide)
  exact ⟨h.1, h.2.2.1, h.2.2.2.1⟩

theorem errorMsg_contains_exn (name : String) (a : Args) (e : String) :
    e.data <:+: (errorMsg name a e).data := by
  unfold errorMsg
  split_ifs
  · simp only [String.data_append]
    exact ⟨"Error executing ".data ++ name.data ++ ": ".data,
      "\nSuggestion: Check if the parameter values are correct. Available arguments were: ".data
        ++ (formatArgs a).data, by simp⟩
  · simp only [String.data_append]
    exact ⟨"Error executing ".data ++ name.data ++ ": ".data, [], by simp⟩

theorem errorMsg_contains_hint (name : String) (a : Args) (e : String)
    (h : mentionsNotFound e = true) :
    "Check if the parameter values are correct".data <:+: (errorMsg name a e).data := by
  unfold errorMsg
  rw [if_pos h]
  refine ⟨("Error executing " ++ name ++ ": " ++ e).data ++ "\nSuggestion: ".data,
    ". Available arguments were: ".data ++ (formatArgs a).data, ?_⟩
  simp [String.data_append, List.append_assoc]

/-- C9: when the underlying tool operation raises during a fresh
dispatch, the dispatcher returns an error string — not an exception —
containing the failure message and, for not-found style failures, the
hint to check the argument values; the error string is cached under the
same canonical key, and an identical repeated call returns the cached
error string with no further invocation of the failing operation and no
state change. -/
theorem failing_call_cached_and_hinted (env : ToolEnv) (st : AgentState) (name : String)
    (a : Args) (f : Args → Except String Nat) (e : String)
    (hfn : lookupFn env.tool_functions name = some f)
    (hfail : f a = Except.error e)
    (hc : lookupAssoc st.function_cache (cacheKey name a) = none)
    (hsess : cacheKey name a ∉ st.current_session_calls) :
    (execute_tool env st name a).1 = errorMsg name a e ∧
    e.data <:+: (execute_tool env st name a).1.data ∧
    (mentionsNotFound e = true →
      "Check if the parameter values are correct".data <:+:
        (execute_tool env st name a).1.data) ∧
    lookupAssoc (execute_tool env st name a).2.1.function_cache (cacheKey name a) =
      some (errorMsg name a e) ∧
    (execute_tool env st name a).2.2 = 1 ∧
    (execute_tool env (execute_tool env st name a).2.1 name a).1 = errorMsg name a e ∧
    (execute_tool env (execute_tool env st name a).2.1 name a).2.2 = 0 ∧
    (execute_tool env (execute_tool env st name a).2.1 name a).2.1 =
      (execute_tool env st name a).2.1 := by
  have h1 := execute_tool_err env st name a f e hc hsess hfn hfail
  have hcache : lookupAssoc (execute_tool env st name a).2.1.function_cache
      (cacheKey name a) = some (errorMsg name a e) := by
    rw [h1]
    exact lookupAssoc_setAssoc_self _ _ _
  have h3 := execute_tool_hit env (execute_tool env st name a).2.1 name a
    (errorMsg name a e) hcache
  refine ⟨by rw [h1], ?_, ?_, hcache, by rw [h1], by rw [h3], by rw [h3], by rw [h3]⟩
  · rw [h1]
    exact errorMsg_contains_exn name a e
  · intro hnf
    rw [h1]
    exact errorMsg_contains_hint name a e hnf

/-- Witness for C9 at the concrete always-raising tool. -/
theorem failing_call_cached_and_hinted_witness :
    (execute_tool envW initState "pokebase_berry" []).1 = errorMsg "pokebase_berry" [] "berry not found" ∧
    "berry not found".data <:+: (execute_tool envW initState "pokebase_berry" []).1.data ∧
    (execute_tool envW (execute_tool envW initState "pokebase_berry" []).2.1
      "pokebase_berry" []).2.2 = 0 := by
  have h := failing_call_cached_and_hinted envW initState "pokebase_berry" [] fBerryW
    "berry not found" rfl rfl rfl (by decide)
  exact ⟨h.1, h.2.1, h.2.2.2.2.2.2.1⟩

end PokeAgent

namespace PokeAgent

theorem runLoop_pos (env : ToolEnv) (script : Nat → ModelResponse) :
    ∀ (fuel i : Nat) (st : LoopSt), 1 ≤ fuel → 1 ≤ (runLoop env script fuel i st).2.2 := by
  intro fuel i st hf
  cases fuel with
  | zero => omega
  | succ n =>
    simp only [runLoop]
    cases script i with
    | raise e => simp
    | message content tcs =>
      by_cases he : tcs.isEmpty
      · simp [he]
      · simp only [if_neg he]
        omega

/-- C2 (amended): for every query and every iteration budget of at least
one iteration, a research invocation never raises past the research
boundary — every failure mode (transport error in the loop, synthesis
failure) degrades to a textual answer with a success flag — and the
synthesis failure path returns exactly the deterministic fallback
summary, which is a total function of the query and call history. -/
theorem research_never_raises (env : ToolEnv) (script : Nat → ModelResponse)
    (synthResp : Except String String) (q : String) (max_iterations : Nat)
    (simulation : Bool) (agent : AgentState) (hmax : 1 ≤ max_iterations) :
    (research env script synthResp q max_iterations simulation agent).1.isOk = true ∧
    (∀ err msgs fcalls,
      synthesize_knowledge (Except.error err) q msgs fcalls =
        create_fallback_summary q fcalls (extract_tool_results msgs)) := by
  refine ⟨?_, fun err msgs fcalls => rfl⟩
  have hn := runLoop_pos env script max_iterations 0 (initLoopSt agent q) hmax
  by_cases hs : simulation
  · simp only [research, if_pos hs]
    rfl
  · simp only [research, if_neg hs]
    rw [if_neg (by omega)]
    rfl

/-- Counterexample to C2 as stated: with iteration budget `0` (and
simulation off) the `for` loop of `research` never runs, so the local
variable `iteration` is never bound and the construction of the result
dictionary raises `UnboundLocalError` — an unhandled exception past the
research boundary. -/
theorem research_budget_zero_raises :
    (research envTriv scriptFinal (Except.ok "synthesized") "q" 0 false initState).1 =
      Except.error
        "UnboundLocalError: local variable \x27iteration\x27 referenced before assignment" :=
  rfl

/-- Witness for C2 (amended) at a concrete budget. -/
theorem research_never_raises_witness :
    (1 : Nat) ≤ 4 ∧
    (research envTriv scriptFinal (Except.ok "synthesized") "q" 4 false
        initState).1.isOk = true :=
  ⟨by decide,
   (research_never_raises envTriv scriptFinal (Except.ok "synthesized") "q" 4 false
      initState (by decide)).1⟩

end PokeAgent

namespace PokeAgent

/-- C1: for every query, a (non-simulation) research invocation that
returns a result object has `success = true` exactly when a truthy final
answer was received from the reasoning service or at least one tool call
was recorded, and `success = false` only in the no-data-collected case,
where `results` is the deterministic no-data explanatory message and the
call history is empty. -/
theorem research_success_iff (env : ToolEnv) (script : Nat → ModelResponse)
    (synthResp : Except String String) (q : String) (max_iterations : Nat)
    (agent : AgentState) (r : ResearchResult) (agent' : AgentState)
    (heq : research env script synthResp q max_iterations false agent =
      (Except.ok (ResearchReturn.answered r), agent')) :
    (r.success = true ↔
      (truthy (runLoop env script max_iterations 0 (initLoopSt agent q)).2.1 = true ∨
        r.reasoning ≠ [])) ∧
    (r.success = false → r.results = noDataMsg q ∧ r.reasoning = []) := by
  by_cases hn : (runLoop env script max_iterations 0 (initLoopSt agent q)).2.2 = 0
  · simp [research, hn] at heq
  · by_cases ht : truthy (runLoop env script max_iterations 0 (initLoopSt agent q)).2.1 = true
    · simp only [research, Bool.false_eq_true, if_false, if_pos ht, if_neg hn] at heq
      rw [Prod.mk.injEq] at heq
      obtain ⟨h1, -⟩ := heq
      injection h1 with h1
      injection h1 with h1
      subst h1
      refine ⟨⟨fun _ => Or.inl ht, fun _ => rfl⟩, fun hf => ?_⟩
      simp at hf
    · by_cases hh :
        (runLoop env script max_iterations 0 (initLoopSt agent q)).1.history.isEmpty = true
      · simp only [research, Bool.false_eq_true, if_false, if_neg hn, if_neg ht,
          if_neg (by simp [hh] : ¬ ((!(runLoop env script max_iterations 0
            (initLoopSt agent q)).1.history.isEmpty) = true))] at heq
        rw [Prod.mk.injEq] at heq
        obtain ⟨h1, -⟩ := heq
        injection h1 with h1
        injection h1 with h1
        subst h1
        refine ⟨⟨fun hc => ?_, fun hor => ?_⟩, fun _ => ⟨rfl, ?_⟩⟩
        · simp at hc
        · rcases hor with hor | hor
          · exact absurd hor ht
          · exact absurd (List.isEmpty_iff.mp hh) hor
        · exact List.isEmpty_iff.mp hh
      · simp only [research, Bool.false_eq_true, if_false, if_neg hn, if_neg ht,
          if_pos (by simp [hh] : (!(runLoop env script max_iterations 0
            (initLoopSt agent q)).1.history.isEmpty) = true)] at heq
        rw [Prod.mk.injEq] at heq
        obtain ⟨h1, -⟩ := heq
        injection h1 with h1
        injection h1 with h1
        subst h1
        refine ⟨⟨fun _ => Or.inr fun habs => hh ?_, fun _ => rfl⟩, fun hf => ?_⟩
        · rw [show (runLoop env script max_iterations 0 (initLoopSt agent q)).1.history = []
            from habs]
          rfl
        · simp at hf

end PokeAgent

namespace PokeAgent

/-- Witness for C1 at a concrete invocation: a truthy final answer
gives `success = true`. -/
theorem research_success_iff_witness : resW.success = true :=
  ((research_success_iff envTriv scriptFinal (Except.ok "synthesized") "q" 4 initState
      resW initState rfl).1).mpr (Or.inl (by decide))

theorem execute_tool_preserves_good (env : ToolEnv) (st : AgentState) (name : String)
    (a : Args) (hg : GoodState st) :
    GoodState (execute_tool env st name a).2.1 ∧
    isCachedMarker (execute_tool env st name a).1 = false := by
  cases hc : lookupAssoc st.function_cache (cacheKey name a) with
  | some cached =>
    rw [execute_tool_hit env st name a cached hc]
    refine ⟨hg, ?_⟩
    obtain ⟨kv, hkv, hv⟩ := lookupAssoc_mem _ _ _ hc
    have hm := hg.2 kv hkv
    rw [hv] at hm
    exact hm
  | none =>
    by_cases hs : cacheKey name a ∈ st.current_session_calls
    · have hsome := hg.1 _ hs
      rw [hc] at hsome
      exact absurd hsome (by simp)
    · cases hfn : lookupFn env.tool_functions name with
      | none =>
        have heq : execute_tool env st name a = ("Tool " ++ name ++ " not found", st, 0) := by
          unfold execute_tool
          simp [hc, hs, hfn]
        rw [heq]
        exact ⟨hg, toolNotFound_not_marker name⟩
      | some f =>
        cases hf : f a with
        | ok ref =>
          rw [execute_tool_ok env st name a f ref hc hs hfn hf]
          refine ⟨⟨?_, ?_⟩, jsonDumps_not_marker _⟩
          · intro k hk
            rcases mem_addSet _ _ _ hk with h1 | h1
            · by_cases hkk : k = cacheKey name a
              · rw [hkk, lookupAssoc_setAssoc_self]
                rfl
              · rw [lookupAssoc_setAssoc_ne _ _ hkk]
                exact hg.1 k h1
            · rw [h1, lookupAssoc_setAssoc_self]
              rfl
          · intro kv hkv
            rcases mem_setAssoc _ _ _ _ hkv with h1 | h1
            · exact hg.2 kv h1
            · rw [h1]
              exact jsonDumps_not_marker _
        | error e =>
          rw [execute_tool_err env st name a f e hc hs hfn hf]
          refine ⟨⟨?_, ?_⟩, errorMsg_not_marker name a e⟩
          · intro k hk
            rcases mem_addSet _ _ _ hk with h1 | h1
            · by_cases hkk : k = cacheKey name a
              · rw [hkk, lookupAssoc_setAssoc_self]
                rfl
              · rw [lookupAssoc_setAssoc_ne _ _ hkk]
                exact hg.1 k h1
            · rw [h1, lookupAssoc_setAssoc_self]
              rfl
          · intro kv hkv
            rcases mem_setAssoc _ _ _ _ hkv with h1 | h1
            · exact hg.2 kv h1
            · rw [h1]
              exact errorMsg_not_marker name a e

theorem processCalls_preserves (env : ToolEnv) :
    ∀ (tcs : List (String × Args)) (st : LoopSt), GoodState st.agent →
      GoodState (processCalls env tcs st).agent ∧
      (processCalls env tcs st).cached_calls = st.cached_calls := by
  intro tcs
  induction tcs with
  | nil => intro st hg; exact ⟨hg, rfl⟩
  | cons c rest ih =>
    intro st hg
    obtain ⟨name, rawArgs⟩ := c
    have he := execute_tool_preserves_good env st.agent name (stripArgs rawArgs) hg
    simp only [processCalls]
    have h2 := ih
      { agent := (execute_tool env st.agent name (stripArgs rawArgs)).2.1,
        messages := st.messages ++
          [Msg.tool name (execute_tool env st.agent name (stripArgs rawArgs)).1],
        history := st.history ++ [(name, stripArgs rawArgs)],
        cached_calls := st.cached_calls +
          (if isCachedMarker (execute_tool env st.agent name (stripArgs rawArgs)).1
            then 1 else 0),
        invocations := st.invocations +
          (execute_tool env st.agent name (stripArgs rawArgs)).2.2 } he.1
    refine ⟨h2.1, ?_⟩
    rw [h2.2]
    simp [he.2]

theorem runLoop_preserves (env : ToolEnv) (script : Nat → ModelResponse) :
    ∀ (fuel i : Nat) (st : LoopSt), GoodState st.agent →
      GoodState (runLoop env script fuel i st).1.agent ∧
      (runLoop env script fuel i st).1.cached_calls = st.cached_calls := by
  intro fuel
  induction fuel with
  | zero => intro i st hg; exact ⟨hg, rfl⟩
  | succ n ih =>
    intro i st hg
    simp only [runLoop]
    cases script i with
    | raise e => exact ⟨hg, rfl⟩
    | message content tcs =>
      by_cases he : tcs.isEmpty
      · simp only [if_pos he]
        exact ⟨hg, trivial⟩
      · simp only [if_neg he]
        have h1 := processCalls_preserves env tcs
          { st with messages := st.messages ++ [Msg.assistant content tcs] } hg
        have h2 := ih (i + 1) _ h1.1
        exact ⟨h2.1, by rw [h2.2, h1.2]⟩

theorem goodState_clear_session (st : AgentState) (hg : GoodState st) :
    GoodState { st with current_session_calls := [] } :=
  ⟨by simp, hg.2⟩

theorem research_preserves (env : ToolEnv) (script : Nat → ModelResponse)
    (synthResp : Except String String) (q : String) (max_iterations : Nat)
    (simulation : Bool) (agent : AgentState) (hg : GoodState agent) :
    GoodState (research env script synthResp q max_iterations simulation agent).2 := by
  have hinit : GoodState (initLoopSt agent q).agent := goodState_clear_session agent hg
  have hrl := runLoop_preserves env script max_iterations 0 (initLoopSt agent q) hinit
  by_cases hs : simulation
  · simp only [research, if_pos hs]
    exact goodState_clear_session agent hg
  · simp only [research, if_neg hs]
    by_cases hn : (runLoop env script max_iterations 0 (initLoopSt agent q)).2.2 = 0
    · rw [if_pos hn]
      exact hrl.1
    · rw [if_neg hn]
      exact hrl.1

theorem reachable_good (env : ToolEnv) : ∀ s : AgentState, Reachable env s → GoodState s := by
  intro s h
  induction h with
  | init => exact ⟨by simp [initState], by simp [initState]⟩
  | research_step script synthResp query max_iterations simulation _ ih =>
    exact research_preserves env script synthResp query max_iterations simulation _ ih
  | clear_step _ ih => exact ⟨by simp [clear_cache], by simp [clear_cache]⟩

/-- C10: in every reachable agent state, every key of the session call
set is also a key of the durable function cache; consequently the
session-level `[CACHED]` marker branch of `_execute_tool` is never
taken — no dispatch from a reachable state returns a marker-prefixed
result — and every answered research result reports `cached_calls = 0`
and `unique_calls` equal to the full length of the recorded call
history. -/
theorem session_calls_subset_cache (env : ToolEnv) (s : AgentState)
    (hreach : Reachable env s) :
    (∀ k ∈ s.current_session_calls, (lookupAssoc s.function_cache k).isSome = true) ∧
    (∀ name args, isCachedMarker (execute_tool env s name args).1 = false) ∧
    (∀ script synthResp q max_iterations r agent',
      research env script synthResp q max_iterations false s =
          (Except.ok (ResearchReturn.answered r), agent') →
      r.cached_calls = 0 ∧ r.unique_calls = r.reasoning.length) := by
  have hg := reachable_good env s hreach
  refine ⟨hg.1, fun name args => (execute_tool_preserves_good env s name args hg).2, ?_⟩
  intro script synthResp q max_iterations r agent' heq
  have hinit : GoodState (initLoopSt s q).agent := goodState_clear_session s hg
  have hrl := runLoop_preserves env script max_iterations 0 (initLoopSt s q) hinit
  have hcc : (runLoop env script max_iterations 0 (initLoopSt s q)).1.cached_calls = 0 :=
    hrl.2
  by_cases hn : (runLoop env script max_iterations 0 (initLoopSt s q)).2.2 = 0
  · simp [research, hn] at heq
  · by_cases ht : truthy (runLoop env script max_iterations 0 (initLoopSt s q)).2.1 = true
    · simp only [research, Bool.false_eq_true, if_false, if_pos ht, if_neg hn] at heq
      rw [Prod.mk.injEq] at heq
      obtain ⟨h1, -⟩ := heq
      injection h1 with h1
      injection h1 with h1
      subst h1
      exact ⟨hcc, by simp [hcc]⟩
    · by_cases hh :
        (runLoop env script max_iterations 0 (initLoopSt s q)).1.history.isEmpty = true
      · simp only [research, Bool.false_eq_true, if_false, if_neg hn, if_neg ht,
          if_neg (by simp [hh] : ¬ ((!(runLoop env script max_iterations 0
            (initLoopSt s q)).1.history.isEmpty) = true))] at heq
        rw [Prod.mk.injEq] at heq
        obtain ⟨h1, -⟩ := heq
        injection h1 with h1
        injection h1 with h1
        subst h1
        exact ⟨hcc, by simp [hcc]⟩
      · simp only [research, Bool.false_eq_true, if_false, if_neg hn, if_neg ht,
          if_pos (by simp [hh] : (!(runLoop env script max_iterations 0
            (initLoopSt s q)).1.history.isEmpty) = true)] at heq
        rw [Prod.mk.injEq] at heq
        obtain ⟨h1, -⟩ := heq
        injection h1 with h1
        injection h1 with h1
        subst h1
        exact ⟨hcc, by simp [hcc]⟩

/-- Witness for C10 at the initial agent state. -/
theorem session_calls_subset_cache_witness :
    isCachedMarker (execute_tool envTriv initState "pokebase_pokemon" []).1 = false ∧
    resW.cached_calls = 0 ∧ resW.unique_calls = resW.reasoning.length := by
  have h := session_calls_subset_cache envTriv initState Reachable.init
  exact ⟨h.2.1 "pokebase_pokemon" [],
    h.2.2 scriptFinal (Except.ok "synthesized") "q" 4 resW initState rfl⟩

end PokeAgent
